import Mathlib

/-
Verification of the command-base layer of the briefcase repository
(src/briefcase/commands/base.py): configuration materialisation
(`create_config`, `BaseCommand.parse_config`) and the cached network fetch
(`BaseCommand.download_url`).

The Python source is shallowly embedded: dictionaries become association
lists (Python dicts preserve insertion order), Python exceptions become an
error sum type returned through `Except`, and the external collaborators
(the HTTP client, the filesystem, the TOML reader) become explicit
parameters.  CPython iterates a `set` in an unspecified order, so the set
iteration used in `create_config`'s message is an explicit parameter
`setOrder`, constrained in theorems to be a permutation.
-/

deriving instance DecidableEq for Except

namespace Briefcase

/-- Configuration values.  The claims only ever store values and compare
them for equality, so a scalar stand-in type suffices. -/
abbrev Value := Nat

/-- The Python exceptions that the embedded fragment can raise or observe.
`otherError` stands for any exception class other than the named ones
(for example ValueError). -/
inductive PyErr where
  | typeError (msg : String)
  | briefcaseConfigError (msg : String)
  | missingNetworkResourceError (url : String)
  | badNetworkResourceError (url : String) (status_code : Nat)
  | parseError (tag : String)
  | zeroDivisionError
  | otherError (tag : String)
  deriving DecidableEq

/-- A constructor parameter as `inspect.signature` reports it: its name and
its default value (`none` when `inspect` reports the empty default,
i.e. the parameter is required). -/
structure Param where
  name : String
  default : Option Value
  deriving DecidableEq

/-- A materialisation target ("class"): its declared named constructor
parameters in declaration order, whether the signature ends with a
catch-all keyword parameter and under which name, and the behaviour of the
constructor body on the bound arguments. -/
structure Klass where
  params : List Param
  hasVarKw : Bool
  varKwName : String
  body : List (String × Value) → Except PyErr (List (String × Value))

/-- A materialised configuration object: a mapping from field name to value. -/
abbrev Obj := List (String × Value)

/-- The keys of a field mapping, in insertion order. -/
def keysOf (config : List (String × Value)) : List String :=
  config.map (·.1)

/-- The keyword binding that `klass(**config)` produces when it succeeds:
each declared parameter paired with the supplied value (or its default),
followed by the leftover keywords when a catch-all parameter collects them. -/
def boundArgs (klass : Klass) (config : List (String × Value)) : List (String × Value) :=
  klass.params.map (fun p => (p.name, ((config.lookup p.name).getD (p.default.getD 0)))) ++
    (if klass.hasVarKw then
      config.filter (fun kv => !(decide (kv.1 ∈ klass.params.map (·.name))))
    else [])

/-- CPython call semantics for `klass(**config)`: the call raises TypeError
when a parameter without a default receives no argument, or when a keyword
matches no declared parameter and there is no catch-all parameter;
otherwise the constructor body runs on the bound arguments. -/
def klassCall (klass : Klass) (config : List (String × Value)) : Except PyErr Obj :=
  if klass.params.any (fun p => p.default.isNone && !(decide (p.name ∈ keysOf config))) then
    .error (.typeError "missing required arguments")
  else if !klass.hasVarKw &&
      config.any (fun kv => !(decide (kv.1 ∈ klass.params.map (·.name)))) then
    .error (.typeError "unexpected keyword argument")
  else
    klass.body (boundArgs klass config)

/-- The parameters of `inspect.signature(klass.__init__)`, in declaration
order: the explicit `self` receiver, the declared parameters, then the
catch-all keyword parameter when the signature has one (`inspect` reports
an empty default for it). -/
def sigParams (klass : Klass) : List Param :=
  ⟨"self", none⟩ :: klass.params ++
    (if klass.hasVarKw then [⟨klass.varKwName, none⟩] else [])

/-- base.py lines 28-33: the elements of the `required_args` set
comprehension — signature parameters whose default is empty and whose name
is not literally self or kwargs — listed in declaration order.  (CPython
stores them in a set and iterates them in an unspecified order; the order
is applied separately via `setOrder`.) -/
def required_args (klass : Klass) : List String :=
  ((sigParams klass).filter
    (fun p => p.default.isNone && p.name != "self" && p.name != "kwargs")).map (·.name)

/-- base.py line 34: `missing_args = required_args - config.keys()`, again
as the declaration-ordered list of the set's elements. -/
def missing_args (klass : Klass) (config : List (String × Value)) : List String :=
  (required_args klass).filter (fun n => !(decide (n ∈ keysOf config)))

/-- base.py lines 21-44, `create_config`.  `setOrder` stands for CPython's
unspecified iteration order over the `missing_args` set; theorems
quantify over it as an arbitrary permutation. -/
def create_config (setOrder : List String → List String) (klass : Klass)
    (config : List (String × Value)) (msg : String) : Except PyErr Obj :=
  match klassCall klass config with
  | .ok obj => .ok obj
  | .error (.typeError _) =>
      .error (.briefcaseConfigError
        (msg ++ " is incomplete (missing " ++
          String.intercalate ", "
            ((setOrder (missing_args klass config)).map (fun arg => "'" ++ arg ++ "'")) ++ ")"))
  | .error e => .error e

/-- A plain data-holding constructor: when binding succeeds the resulting
object's fields are exactly the bound arguments.  This is the behaviour the
spec ascribes to the ConfigObject constructors. -/
def dataKlass (params : List Param) (hasVarKw : Bool) (varKwName : String) : Klass :=
  ⟨params, hasVarKw, varKwName, fun fields => .ok fields⟩

/-- Modelled from claim C1's words: the required parameters of the
constructor — no default, excluding self and the catch-all keyword
parameter by its role, whatever its name — that are absent from the field
mapping, in declaration order. -/
def claimMissingArgs (klass : Klass) (config : List (String × Value)) : List String :=
  ((klass.params.filter (·.default.isNone)).map (·.name)).filter
    (fun n => !(decide (n ∈ keysOf config)))

/-- Modelled from claim C1's words: the exact ConfigError message the claim
predicts. -/
def claimMessage (klass : Klass) (config : List (String × Value)) (msg : String) : String :=
  msg ++ " is incomplete (missing " ++
    String.intercalate ", "
      ((claimMissingArgs klass config).map (fun arg => "'" ++ arg ++ "'")) ++ ")"

/-- The configuration source as `BaseCommand.parse_config` sees it: whether
the file exists (`open` raises FileNotFoundError otherwise) and, when it
does, the outcome of `briefcase.config.parse_config` on its content.  That
reader lives outside the embedded source file, so it is abstracted: a
malformed file is an error tag, success is the raw global mapping together
with the per-app raw mappings in insertion order. -/
structure ConfigSource where
  present : Bool
  parsed : Except String (List (String × Value) × List (String × List (String × Value)))

/-- base.py lines 166-196, `BaseCommand.parse_config`: the FileNotFoundError
from `open` is converted to a ConfigError, every other failure propagates. -/
def parse_config (setOrder : List String → List String)
    (globalKlass appKlass : Klass) (src : ConfigSource) :
    Except PyErr (Obj × List (String × Obj)) :=
  if src.present then
    match src.parsed with
    | .error tag => .error (.parseError tag)
    | .ok (globalRaw, appRaws) => do
        let globalObj ← create_config setOrder globalKlass globalRaw "Global configuration"
        let apps ← appRaws.mapM (fun app => do
          let obj ← create_config setOrder appKlass app.2
            ("Configuration for '" ++ app.1 ++ "'")
          pure (app.1, obj))
        pure (globalObj, apps)
  else
    .error (.briefcaseConfigError "configuration file not found")

/-! Association-list helper lemmas. -/

theorem lookup_append_of_some {l₁ l₂ : List (String × Value)} {k : String} {v : Value}
    (h : l₁.lookup k = some v) : (l₁ ++ l₂).lookup k = some v := by
  induction l₁ with
  | nil => simp [List.lookup] at h
  | cons e es ih =>
    rw [List.cons_append]
    rw [List.lookup] at h ⊢
    cases hb : (k == e.1) with
    | true => rw [hb] at h; simpa [hb] using h
    | false => rw [hb] at h; simpa [hb] using ih h

theorem lookup_map_params (params : List Param) (g : Param → Value) {p : Param}
    (hnodup : (params.map (·.name)).Nodup) (hp : p ∈ params) :
    (params.map (fun q => (q.name, g q))).lookup p.name = some (g p) := by
  induction params with
  | nil => cases hp
  | cons q rest ih =>
    rw [List.map_cons] at hnodup ⊢
    rcases List.mem_cons.mp hp with hq | hrest
    · subst hq
      rw [List.lookup, beq_self_eq_true]
    · have hne : p.name ≠ q.name := by
        intro he
        have : q.name ∈ rest.map (·.name) := he ▸ List.mem_map_of_mem (·.name) hrest
        exact (List.nodup_cons.mp hnodup).1 this
      rw [List.lookup, beq_eq_false_iff_ne.mpr hne]
      exact ih (List.nodup_cons.mp hnodup).2 hrest

theorem lookup_of_mem_keys {config : List (String × Value)} {k : String}
    (h : k ∈ keysOf config) : ∃ v, config.lookup k = some v := by
  induction config with
  | nil => simp [keysOf] at h
  | cons e es ih =>
    rw [List.lookup]
    cases hb : (k == e.1) with
    | true => exact ⟨e.2, rfl⟩
    | false =>
      rcases List.mem_cons.mp h with he | hes
      · rw [he] at hb; simp at hb
      · exact ih hes

/-! ## Claim C1 -/

/-- C1 (amended): whenever `klass(**config)` raises TypeError,
`create_config` raises ConfigError with message
"msg is incomplete (missing ...)", the listed names being exactly the
signature parameters without a default whose name is not literally self or
kwargs and that are absent from the mapping's keys — each single-quoted,
comma-separated, in CPython's unspecified set-iteration order (an arbitrary
permutation of that set); no key present in the mapping is listed. -/
theorem C1_missing_field_message (setOrder : List String → List String) (klass : Klass)
    (config : List (String × Value)) (msg errMsg : String)
    (hperm : ∀ l : List String, (setOrder l).Perm l)
    (hfail : klassCall klass config = .error (.typeError errMsg)) :
    create_config setOrder klass config msg = .error (.briefcaseConfigError
      (msg ++ " is incomplete (missing " ++
        String.intercalate ", "
          ((setOrder (missing_args klass config)).map (fun arg => "'" ++ arg ++ "'")) ++ ")"))
    ∧ (∀ x, x ∈ setOrder (missing_args klass config) ↔
        (x ∈ required_args klass ∧ x ∉ keysOf config))
    ∧ (∀ x, x ∈ keysOf config → x ∉ setOrder (missing_args klass config)) := by
  refine ⟨?_, ?_, ?_⟩
  · unfold create_config
    rw [hfail]
  · intro x
    rw [(hperm _).mem_iff]
    simp [missing_args, List.mem_filter]
  · intro x hx
    rw [(hperm _).mem_iff]
    simp [missing_args, List.mem_filter]
    intro _
    exact hx

theorem C1_missing_field_message_witness :
    (∀ l : List String, (id l).Perm l)
    ∧ klassCall (dataKlass [⟨"a", none⟩] false "") [] =
        .error (.typeError "missing required arguments")
    ∧ (create_config id (dataKlass [⟨"a", none⟩] false "") [] "Global configuration" =
        .error (.briefcaseConfigError
          ("Global configuration" ++ " is incomplete (missing " ++
            String.intercalate ", "
              ((id (missing_args (dataKlass [⟨"a", none⟩] false "") [])).map
                (fun arg => "'" ++ arg ++ "'")) ++ ")"))
      ∧ (∀ x, x ∈ id (missing_args (dataKlass [⟨"a", none⟩] false "") []) ↔
          (x ∈ required_args (dataKlass [⟨"a", none⟩] false "")
            ∧ x ∉ keysOf ([] : List (String × Value))))
      ∧ (∀ x, x ∈ keysOf ([] : List (String × Value)) →
          x ∉ id (missing_args (dataKlass [⟨"a", none⟩] false "") []))) :=
  ⟨fun l => List.Perm.refl l, by decide,
    C1_missing_field_message id (dataKlass [⟨"a", none⟩] false "") [] "Global configuration"
      "missing required arguments" (fun l => List.Perm.refl l) (by decide)⟩

/-- C1 counterexample: a constructor whose catch-all keyword parameter is
named opts rather than kwargs.  With the empty field mapping the call
raises TypeError; the code then lists opts among the missing names (its
`inspect` default is empty and its name is not literally kwargs), while
the claim's message lists only the genuinely required parameter a.
Moreover the two possible iteration orders of the two-element set yield
two different messages, so the message is not the single string the claim
mandates. -/
theorem C1_counterexample :
    create_config id (dataKlass [⟨"a", none⟩] true "opts") [] "Global configuration" =
      .error (.briefcaseConfigError
        "Global configuration is incomplete (missing 'a', 'opts')")
    ∧ create_config List.reverse (dataKlass [⟨"a", none⟩] true "opts") [] "Global configuration" =
      .error (.briefcaseConfigError
        "Global configuration is incomplete (missing 'opts', 'a')")
    ∧ claimMessage (dataKlass [⟨"a", none⟩] true "opts") [] "Global configuration" =
      "Global configuration is incomplete (missing 'a')"
    ∧ ("Global configuration is incomplete (missing 'a', 'opts')" ≠
        claimMessage (dataKlass [⟨"a", none⟩] true "opts") [] "Global configuration")
    ∧ ("Global configuration is incomplete (missing 'opts', 'a')" ≠
        claimMessage (dataKlass [⟨"a", none⟩] true "opts") [] "Global configuration") := by
  refine ⟨by decide, by decide, by decide, by decide, by decide⟩

/-! ## Claim C2 -/

/-- C2 (amended): if the field mapping supplies every required field and,
moreover, every key it supplies is either a declared constructor parameter
or absorbed by a catch-all keyword parameter, then materialisation
succeeds and the declared fields of the result equal the corresponding
entries of the mapping. -/
theorem C2_success (setOrder : List String → List String) (params : List Param)
    (hasVarKw : Bool) (varKwName : String) (config : List (String × Value)) (msg : String)
    (hreq : ∀ p ∈ params, p.default = none → p.name ∈ keysOf config)
    (hkeys : hasVarKw = true ∨ ∀ kv ∈ config, kv.1 ∈ params.map (·.name))
    (hnodup : (params.map (·.name)).Nodup) :
    ∃ obj, create_config setOrder (dataKlass params hasVarKw varKwName) config msg = .ok obj
      ∧ ∀ p ∈ params, p.name ∈ keysOf config → obj.lookup p.name = config.lookup p.name := by
  have h1 : ¬ (((dataKlass params hasVarKw varKwName).params.any
      (fun p => p.default.isNone && !(decide (p.name ∈ keysOf config)))) = true) := by
    rw [List.any_eq_true]
    rintro ⟨p, hp, hpb⟩
    simp only [dataKlass] at hp
    simp only [Bool.and_eq_true, Option.isNone_iff_eq_none, Bool.not_eq_true',
      decide_eq_false_iff_not] at hpb
    exact hpb.2 (hreq p hp hpb.1)
  have h2 : ¬ ((!(dataKlass params hasVarKw varKwName).hasVarKw &&
      config.any (fun kv =>
        !(decide (kv.1 ∈ (dataKlass params hasVarKw varKwName).params.map (·.name))))) = true) := by
    rw [Bool.and_eq_true]
    rintro ⟨hbk, hany⟩
    rw [List.any_eq_true] at hany
    obtain ⟨kv, hkv, hh⟩ := hany
    rcases hkeys with hvk | hdecl
    · simp [dataKlass, hvk] at hbk
    · simp only [dataKlass, Bool.not_eq_true', decide_eq_false_iff_not] at hh
      exact hh (hdecl kv hkv)
  have hcall : klassCall (dataKlass params hasVarKw varKwName) config =
      .ok (boundArgs (dataKlass params hasVarKw varKwName) config) := by
    unfold klassCall
    rw [if_neg h1, if_neg h2]
    rfl
  refine ⟨boundArgs (dataKlass params hasVarKw varKwName) config, ?_, ?_⟩
  · unfold create_config
    rw [hcall]
  · intro p hp hpk
    obtain ⟨v, hv⟩ := lookup_of_mem_keys hpk
    have hlk : (params.map (fun q =>
        (q.name, ((config.lookup q.name).getD (q.default.getD 0))))).lookup p.name =
        some ((config.lookup p.name).getD (p.default.getD 0)) :=
      lookup_map_params params (fun q => (config.lookup q.name).getD (q.default.getD 0))
        hnodup hp
    simp only [boundArgs, dataKlass]
    rw [lookup_append_of_some hlk, hv]
    simp

theorem C2_success_witness :
    (∀ p ∈ [Param.mk "formal_name" none, Param.mk "version" (some 7)],
        p.default = none → p.name ∈ keysOf [("formal_name", 3), ("extra", 9)])
    ∧ (true = true ∨ ∀ kv ∈ [("formal_name", 3), ("extra", 9)],
        kv.1 ∈ [Param.mk "formal_name" none, Param.mk "version" (some 7)].map (·.name))
    ∧ ([Param.mk "formal_name" none, Param.mk "version" (some 7)].map (·.name)).Nodup
    ∧ ∃ obj, create_config id
        (dataKlass [Param.mk "formal_name" none, Param.mk "version" (some 7)] true "kwargs")
        [("formal_name", 3), ("extra", 9)] "Global configuration" = .ok obj
      ∧ ∀ p ∈ [Param.mk "formal_name" none, Param.mk "version" (some 7)],
          p.name ∈ keysOf [("formal_name", 3), ("extra", 9)] →
          obj.lookup p.name = [("formal_name", 3), ("extra", 9)].lookup p.name :=
  ⟨by decide, Or.inl rfl, by decide,
    C2_success id [Param.mk "formal_name" none, Param.mk "version" (some 7)] true "kwargs"
      [("formal_name", 3), ("extra", 9)] "Global configuration"
      (by decide) (Or.inl rfl) (by decide)⟩

/-- C2 counterexample: the mapping contains every required field of the
target (the single parameter a, as `claimMissingArgs`/`missing_args` both
being empty records), yet materialisation of a target without a catch-all
keyword parameter fails on the unexpected key z — with the degenerate
message "App is incomplete (missing )" — instead of succeeding. -/
theorem C2_counterexample :
    claimMissingArgs (dataKlass [⟨"a", none⟩] false "") [("a", 1), ("z", 2)] = []
    ∧ missing_args (dataKlass [⟨"a", none⟩] false "") [("a", 1), ("z", 2)] = []
    ∧ create_config id (dataKlass [⟨"a", none⟩] false "") [("a", 1), ("z", 2)] "App" =
        .error (.briefcaseConfigError "App is incomplete (missing )") := by
  refine ⟨by decide, by decide, by decide⟩

/-! ## Claim C8 -/

/-- C8 (amended): a construction failure that is not a TypeError propagates
out of `create_config` unmodified; only TypeError — whether from argument
binding or raised inside the constructor body — is reinterpreted as the
missing-field ConfigError. -/
theorem C8_non_typeerror_propagates (setOrder : List String → List String)
    (klass : Klass) (config : List (String × Value)) (msg : String) (e : PyErr)
    (hfail : klassCall klass config = .error e)
    (hnotte : ∀ t, e ≠ .typeError t) :
    create_config setOrder klass config msg = .error e := by
  unfold create_config
  rw [hfail]
  cases e with
  | typeError t => exact absurd rfl (hnotte t)
  | briefcaseConfigError m => rfl
  | missingNetworkResourceError u => rfl
  | badNetworkResourceError u s => rfl
  | parseError t => rfl
  | zeroDivisionError => rfl
  | otherError t => rfl

theorem C8_non_typeerror_propagates_witness :
    klassCall ⟨[⟨"a", some 0⟩], false, "", fun _ => .error (.otherError "ValueError: bad value")⟩
        [("a", 1)] = .error (.otherError "ValueError: bad value")
    ∧ (∀ t, PyErr.otherError "ValueError: bad value" ≠ .typeError t)
    ∧ create_config id
        ⟨[⟨"a", some 0⟩], false, "", fun _ => .error (.otherError "ValueError: bad value")⟩
        [("a", 1)] "App" = .error (.otherError "ValueError: bad value") :=
  ⟨by decide, fun t h => PyErr.noConfusion h,
    C8_non_typeerror_propagates id
      ⟨[⟨"a", some 0⟩], false, "", fun _ => .error (.otherError "ValueError: bad value")⟩
      [("a", 1)] "App" (.otherError "ValueError: bad value") (by decide)
      (fun t h => PyErr.noConfusion h)⟩

/-- C8 counterexample: a constructor body that rejects a wrong value type
by raising TypeError — the way CPython itself signals wrong-type operands.
All arguments bind fine, the body raises TypeError, and `except TypeError`
reinterprets it as a missing-field ConfigError (with an empty missing
list) instead of letting it propagate. -/
theorem C8_counterexample :
    klassCall ⟨[⟨"a", some 0⟩], false, "", fun _ => .error (.typeError "unsupported operand type")⟩
        [("a", 1)] = .error (.typeError "unsupported operand type")
    ∧ create_config id
        ⟨[⟨"a", some 0⟩], false, "", fun _ => .error (.typeError "unsupported operand type")⟩
        [("a", 1)] "App" = .error (.briefcaseConfigError "App is incomplete (missing )")
    ∧ create_config id
        ⟨[⟨"a", some 0⟩], false, "", fun _ => .error (.typeError "unsupported operand type")⟩
        [("a", 1)] "App" ≠ .error (.typeError "unsupported operand type") := by
  refine ⟨by decide, by decide, by decide⟩

/-! ## Claim C6 -/

/-- C6: an absent configuration source makes `parse_config` fail with
ConfigError "configuration file not found", while a malformed source
propagates as a parse error of a different, distinguishable kind that is
never converted into that ConfigError. -/
theorem C6_file_not_found (setOrder : List String → List String)
    (globalKlass appKlass : Klass) (srcAbsent srcBad : ConfigSource) (tag : String)
    (habsent : srcAbsent.present = false)
    (hpresent : srcBad.present = true) (hbad : srcBad.parsed = .error tag) :
    parse_config setOrder globalKlass appKlass srcAbsent =
      .error (.briefcaseConfigError "configuration file not found")
    ∧ parse_config setOrder globalKlass appKlass srcBad = .error (.parseError tag)
    ∧ (∀ m, (PyErr.parseError tag) ≠ .briefcaseConfigError m) := by
  refine ⟨?_, ?_, ?_⟩
  · unfold parse_config
    rw [habsent]
    rfl
  · unfold parse_config
    rw [hpresent, hbad]
    rfl
  · intro m h
    cases h

theorem C6_file_not_found_witness :
    (ConfigSource.mk false (.error "")).present = false
    ∧ (ConfigSource.mk true (.error "toml decode error")).present = true
    ∧ (ConfigSource.mk true (.error "toml decode error")).parsed = .error "toml decode error"
    ∧ parse_config id (dataKlass [] false "") (dataKlass [] false "")
        (ConfigSource.mk false (.error "")) =
        .error (.briefcaseConfigError "configuration file not found")
    ∧ parse_config id (dataKlass [] false "") (dataKlass [] false "")
        (ConfigSource.mk true (.error "toml decode error")) =
        .error (.parseError "toml decode error")
    ∧ (∀ m, (PyErr.parseError "toml decode error") ≠ .briefcaseConfigError m) := by
  have h := C6_file_not_found id (dataKlass [] false "") (dataKlass [] false "")
    (ConfigSource.mk false (.error "")) (ConfigSource.mk true (.error "toml decode error"))
    "toml decode error" rfl rfl rfl
  exact ⟨rfl, rfl, rfl, h.1, h.2.1, h.2.2⟩

/-! ## URL parsing (urllib.parse) as download_url uses it -/

/-- The characters CPython allows in a URL scheme (letters, digits, plus,
minus, dot; `Char.isAlpha`/`isDigit` are ASCII-only, as in scheme_chars). -/
def isSchemeChar (c : Char) : Bool :=
  c.isAlpha || c.isDigit || c == '+' || c == '-' || c == '.'

/-- urlsplit's scheme handling: when there is a colon at a positive index
and every character before it is a scheme character, the lowercased prefix
is the scheme and parsing continues after the colon; otherwise there is no
scheme. -/
def splitSchemeL (l : List Char) : List Char × List Char :=
  match l.findIdx? (· == ':') with
  | some i =>
      if 0 < i && (l.take i).all isSchemeChar then
        ((l.take i).map Char.toLower, l.drop (i + 1))
      else ([], l)
  | none => ([], l)

/-- urlsplit's netloc handling: when the remainder starts with two
slashes, the netloc extends up to the next slash, question mark or hash,
and parsing continues at that delimiter. -/
def splitNetlocL : List Char → List Char
  | '/' :: '/' :: rest => rest.dropWhile (fun c => c != '/' && c != '?' && c != '#')
  | l => l

/-- The path component of urlsplit(url): strip the scheme, then the
netloc, then keep everything before the first hash or question mark (the
fragment and the query). -/
def urlsplitPathL (url : String) : List Char :=
  (splitNetlocL (splitSchemeL url.toList).2).takeWhile (fun c => c != '#' && c != '?')

/-- The lowercased scheme of the URL, empty when there is none. -/
def urlScheme (url : String) : String :=
  String.mk (splitSchemeL url.toList).1

/-- urllib.parse.uses_params: the schemes for which urlparse splits a
parameter suffix off the last path segment. -/
def uses_params : List String :=
  ["", "ftp", "hdl", "prospero", "http", "imap", "https", "shttp", "rtsp",
    "rtspu", "sip", "sips", "mms", "sftp", "tel"]

/-- urllib.parse._splitparams on the path, which urlparse calls when the
scheme uses parameters and the path contains a semicolon: cut the path at
the first semicolon at or after the last slash (keeping the path whole
when no semicolon follows the last slash); in a slash-free path cut at the
first semicolon. -/
def splitparamsL (p : List Char) : List Char :=
  if decide ('/' ∈ p) then
    if decide (';' ∈ (p.reverse.takeWhile (fun c => decide (c ≠ '/'))).reverse) then
      (p.reverse.dropWhile (fun c => decide (c ≠ '/'))).reverse ++
        ((p.reverse.takeWhile (fun c => decide (c ≠ '/'))).reverse.takeWhile
          (fun c => decide (c ≠ ';')))
    else p
  else
    p.takeWhile (fun c => decide (c ≠ ';'))

/-- The path component of urlparse(url): the urlsplit path, with the
parameter suffix removed for the schemes that use parameters. -/
def urlparsePathL (url : String) : List Char :=
  if decide (urlScheme url ∈ uses_params) && decide (';' ∈ urlsplitPathL url) then
    splitparamsL (urlsplitPathL url)
  else
    urlsplitPathL url

/-- Python's str.split with a one-character separator: every maximal
separator-free run, including the empty runs around adjacent separators;
never the empty list. -/
def splitChar (sep : Char) : List Char → List (List Char)
  | [] => [[]]
  | c :: cs =>
      if c = sep then [] :: splitChar sep cs
      else
        match splitChar sep cs with
        | [] => [[c]]
        | r :: rs => (c :: r) :: rs

/-- base.py line 212: `urlparse(url).path.split('/')[-1]` (split never
returns an empty list, so [-1] is its last element). -/
def cache_name (url : String) : String :=
  String.mk (((splitChar '/' (urlparsePathL url)).getLast?).getD [])

/-- Modelled from claim C5's words: the final path segment of the URL
after stripping query and fragment — the last '/'-separated piece of the
URL's query- and fragment-stripped path component. -/
def specCacheName (url : String) : String :=
  String.mk (((splitChar '/' (urlsplitPathL url)).getLast?).getD [])

/-! ## Paths, the filesystem, and the HTTP client -/

/-- A pathlib path, as its list of components. -/
abbrev Path := List String

/-- pathlib's `/` on a string argument: the string contributes its
non-empty '/'-separated components, so joining the empty string returns
the path unchanged. -/
def pathJoin (p : Path) (s : String) : Path :=
  p ++ ((splitChar '/' s.toList).map (fun l => String.mk l)).filter (fun t => !(t == ""))

/-- base.py lines 212-214 (spec §4.3 resolvePath): the cache directory
joined with the URL-derived cache filename. -/
def resolvePath (url : String) (cacheDir : Path) : Path :=
  pathJoin cacheDir (cache_name url)

/-- Modelled from claim C5's words: cacheDir joined with the claim's cache
name. -/
def resolvePathSpec (url : String) (cacheDir : Path) : Path :=
  pathJoin cacheDir (specCacheName url)

/-- The filesystem as download_url observes it: the existing directories
and the files with their byte contents. -/
structure FS where
  dirs : List Path
  files : List (Path × List Nat)
  deriving DecidableEq

/-- `path.mkdir(parents=True, exist_ok=True)`: the directory and all its
ancestors exist afterwards; files are untouched and no error is raised. -/
def FS.mkdirP (fs : FS) (p : Path) : FS :=
  ⟨p :: ((List.range p.length).map (fun i => p.take i) ++ fs.dirs), fs.files⟩

/-- `path.exists()`. -/
def FS.existsPath (fs : FS) (p : Path) : Bool :=
  decide (p ∈ fs.dirs) || fs.files.any (fun e => decide (e.1 = p))

/-- `open(path, 'wb')` followed by writing `content`: the file now holds
exactly `content`. -/
def FS.writeFile (fs : FS) (p : Path) (content : List Nat) : FS :=
  ⟨fs.dirs, (p, content) :: fs.files.filter (fun e => !(decide (e.1 = p)))⟩

/-- A streaming HTTP response: status code, the advertised content-length
header (decoded to a number) when present, and the body bytes. -/
structure HttpResponse where
  status_code : Nat
  contentLength : Option Nat
  content : List Nat

/-- The download chunk size, 1 MiB (base.py line 236). -/
def CHUNK : Nat := 1024 * 1024

/-- `response.iter_content(chunk_size=CHUNK)`: the body cut into
consecutive chunks of CHUNK bytes, the last chunk possibly shorter.  The
fuel argument (any bound on the list length) only forces termination, so
the definition stays structural and kernel-reducible. -/
def chunkifyAux : Nat → List Nat → List (List Nat)
  | _, [] => []
  | 0, l => [l]
  | fuel + 1, c :: cs => ((c :: cs).take CHUNK) :: chunkifyAux fuel ((c :: cs).drop CHUNK)

def chunkify (l : List Nat) : List (List Nat) :=
  chunkifyAux l.length l

/-- The number of chunks for a body of n bytes. -/
def numChunks (n : Nat) : Nat := (n + CHUNK - 1) / CHUNK

/-- base.py line 240: the progress line printed after a chunk (with
end='', so no trailing newline): a carriage return, `done` filled blocks,
`50 - done` dots, a space, the percentage `2 * done`, and a percent
sign. -/
def progressLine (done : Nat) : String :=
  "\r" ++ String.mk (List.replicate done '█') ++
    String.mk (List.replicate (50 - done) '.') ++ " " ++ toString (2 * done) ++ "%"

/-- The progress lines the download loop prints: after each chunk, with
`downloaded` the bytes accumulated so far, the line for
`done = ⌊50 * downloaded / total⌋`.  (Python computes
`int(50 * downloaded / total)` through float true division; for every
total below 2^47 that float result truncates to this exact floor.) -/
def progressOutput (total : Nat) : Nat → List (List Nat) → List String
  | _, [] => []
  | downloaded, c :: cs =>
      progressLine (50 * (downloaded + c.length) / total) ::
        progressOutput total (downloaded + c.length) cs

/-- The observable outcome of one download_url call: the returned path (or
the raised exception), the filesystem afterwards, how many GET requests
were issued, and the exact strings written to stdout, in order. -/
structure DlResult where
  ret : Except PyErr Path
  fs : FS
  requests : Nat
  output : List String
  deriving DecidableEq

/-- Whether the call ended in one of the two HTTP-status errors. -/
def retHttpError (r : DlResult) : Bool :=
  match r.ret with
  | .error (.missingNetworkResourceError _) => true
  | .error (.badNetworkResourceError _ _) => true
  | _ => false

/-- base.py lines 198-244, `BaseCommand.download_url`.  `net` is the
abstracted HTTP client: the streaming response it returns for a URL.
`print(x)` writes the string plus a newline, `print(x, end='')` writes
just the string; each element of `output` is one raw write.  When the
advertised content-length is 0 while the body is not empty, Python raises
ZeroDivisionError computing the first chunk's progress, after that chunk
was already written. -/
def download_url (net : String → HttpResponse) (fs : FS) (url : String)
    (download_path : Path) : DlResult :=
  let fs1 := fs.mkdirP download_path
  let filename := resolvePath url download_path
  if fs1.existsPath filename then
    ⟨.ok filename, fs1, 0, [cache_name url ++ " already downloaded\n"]⟩
  else
    let r := net url
    if r.status_code == 404 then
      ⟨.error (.missingNetworkResourceError url), fs1, 1, []⟩
    else if r.status_code != 200 then
      ⟨.error (.badNetworkResourceError url r.status_code), fs1, 1, []⟩
    else
      match r.contentLength with
      | none => ⟨.ok filename, fs1.writeFile filename r.content, 1, ["\n"]⟩
      | some total =>
          if total == 0 && !r.content.isEmpty then
            ⟨.error .zeroDivisionError, fs1.writeFile filename (r.content.take CHUNK), 1, []⟩
          else
            ⟨.ok filename, fs1.writeFile filename r.content, 1,
              progressOutput total 0 (chunkify r.content) ++ ["\n"]⟩

/-! ## Claim C3 -/

/-- C3: with the cache path absent, a streaming GET answered 404 raises
MissingNetworkResourceError carrying the URL; a GET answered any other
non-200 status s raises BadNetworkResourceError carrying the URL and s;
and a 200 response raises neither error. -/
theorem C3_http_status_errors (fs : FS) (url : String) (dp : Path)
    (net404 netBad net200 : String → HttpResponse) (s : Nat)
    (hmiss : (fs.mkdirP dp).existsPath (resolvePath url dp) = false)
    (h404 : (net404 url).status_code = 404)
    (hbad : (netBad url).status_code = s) (hs404 : s ≠ 404) (hs200 : s ≠ 200)
    (h200 : (net200 url).status_code = 200) :
    (download_url net404 fs url dp).ret = .error (.missingNetworkResourceError url)
    ∧ (download_url netBad fs url dp).ret = .error (.badNetworkResourceError url s)
    ∧ retHttpError (download_url net200 fs url dp) = false := by
  refine ⟨?_, ?_, ?_⟩
  · simp [download_url, hmiss, h404]
  · simp [download_url, hmiss, hbad, hs404, hs200]
  · cases hcl : (net200 url).contentLength with
    | none => simp [download_url, hmiss, h200, hcl, retHttpError]
    | some total =>
      by_cases hz : (total == 0 && !(net200 url).content.isEmpty) = true
      · simp [download_url, hmiss, h200, hcl, hz, retHttpError]
      · simp [download_url, hmiss, h200, hcl, hz, retHttpError]

theorem C3_http_status_errors_witness :
    ((FS.mk [] []).mkdirP ["cache"]).existsPath
        (resolvePath "https://example.com/assets/app.zip" ["cache"]) = false
    ∧ ((fun _ => HttpResponse.mk 404 none []) "https://example.com/assets/app.zip").status_code = 404
    ∧ ((fun _ => HttpResponse.mk 500 none []) "https://example.com/assets/app.zip").status_code = 500
    ∧ (500 : Nat) ≠ 404 ∧ (500 : Nat) ≠ 200
    ∧ ((fun _ => HttpResponse.mk 200 none [7, 7]) "https://example.com/assets/app.zip").status_code = 200
    ∧ (download_url (fun _ => HttpResponse.mk 404 none []) (FS.mk [] [])
        "https://example.com/assets/app.zip" ["cache"]).ret =
        .error (.missingNetworkResourceError "https://example.com/assets/app.zip")
    ∧ (download_url (fun _ => HttpResponse.mk 500 none []) (FS.mk [] [])
        "https://example.com/assets/app.zip" ["cache"]).ret =
        .error (.badNetworkResourceError "https://example.com/assets/app.zip" 500)
    ∧ retHttpError (download_url (fun _ => HttpResponse.mk 200 none [7, 7]) (FS.mk [] [])
        "https://example.com/assets/app.zip" ["cache"]) = false := by
  have h := C3_http_status_errors (FS.mk [] []) "https://example.com/assets/app.zip" ["cache"]
    (fun _ => HttpResponse.mk 404 none []) (fun _ => HttpResponse.mk 500 none [])
    (fun _ => HttpResponse.mk 200 none [7, 7]) 500
    (by decide) rfl rfl (by decide) (by decide) rfl
  exact ⟨by decide, rfl, rfl, by decide, by decide, rfl, h.1, h.2.1, h.2.2⟩

/-! ## Claim C9 -/

/-- C9: when the cache path is absent and the GET is answered with any
non-200 status, download_url raises one of the two HTTP-status errors and
leaves the files of the filesystem exactly as they were — in particular no
file is created or modified at the target path. -/
theorem C9_no_write_on_http_error (net : String → HttpResponse) (fs : FS)
    (url : String) (dp : Path)
    (hmiss : (fs.mkdirP dp).existsPath (resolvePath url dp) = false)
    (hbad : (net url).status_code ≠ 200) :
    (download_url net fs url dp).fs.files = fs.files
    ∧ retHttpError (download_url net fs url dp) = true := by
  have hfs : (download_url net fs url dp).fs = fs.mkdirP dp := by
    by_cases h404 : (net url).status_code = 404
    · simp [download_url, hmiss, h404]
    · simp [download_url, hmiss, h404, hbad]
  have hret : retHttpError (download_url net fs url dp) = true := by
    by_cases h404 : (net url).status_code = 404
    · simp [download_url, hmiss, h404, retHttpError]
    · simp [download_url, hmiss, h404, hbad, retHttpError]
  exact ⟨by rw [hfs]; rfl, hret⟩

theorem C9_no_write_on_http_error_witness :
    ((FS.mk [] []).mkdirP ["cache"]).existsPath
        (resolvePath "https://example.com/assets/app.zip" ["cache"]) = false
    ∧ ((fun _ => HttpResponse.mk 503 none [1, 2, 3]) "https://example.com/assets/app.zip").status_code ≠ 200
    ∧ (download_url (fun _ => HttpResponse.mk 503 none [1, 2, 3]) (FS.mk [] [])
        "https://example.com/assets/app.zip" ["cache"]).fs.files = (FS.mk [] []).files
    ∧ retHttpError (download_url (fun _ => HttpResponse.mk 503 none [1, 2, 3]) (FS.mk [] [])
        "https://example.com/assets/app.zip" ["cache"]) = true := by
  have h := C9_no_write_on_http_error (fun _ => HttpResponse.mk 503 none [1, 2, 3])
    (FS.mk [] []) "https://example.com/assets/app.zip" ["cache"] (by decide) (by decide)
  exact ⟨by decide, by decide, h.1, h.2⟩

/-! ## splitChar, path and filesystem lemmas -/

theorem splitChar_ne_nil (sep : Char) (l : List Char) : splitChar sep l ≠ [] := by
  cases l with
  | nil => simp [splitChar]
  | cons c cs =>
    simp only [splitChar]
    by_cases h : c = sep
    · simp [h]
    · rw [if_neg h]
      cases hr : splitChar sep cs <;> simp

theorem splitChar_length_ends_sep (sep : Char) (q : List Char) :
    2 ≤ (splitChar sep (q ++ [sep])).length := by
  induction q with
  | nil => simp [splitChar]
  | cons c cs ih =>
    rw [List.cons_append]
    simp only [splitChar]
    by_cases h : c = sep
    · rw [if_pos h]
      cases hr : splitChar sep (cs ++ [sep]) with
      | nil => exact absurd hr (splitChar_ne_nil sep (cs ++ [sep]))
      | cons r rs => simp
    · rw [if_neg h]
      cases hr : splitChar sep (cs ++ [sep]) with
      | nil => exact absurd hr (splitChar_ne_nil sep (cs ++ [sep]))
      | cons r rs =>
        rw [hr] at ih
        simp only [List.length_cons] at ih ⊢
        omega

theorem splitChar_getLast_ends_sep (sep : Char) (q : List Char) :
    ((splitChar sep (q ++ [sep])).getLast?).getD [] = [] := by
  induction q with
  | nil => simp [splitChar]
  | cons c cs ih =>
    rw [List.cons_append]
    have h2 := splitChar_length_ends_sep sep cs
    simp only [splitChar]
    by_cases h : c = sep
    · rw [if_pos h]
      cases hr : splitChar sep (cs ++ [sep]) with
      | nil => rw [hr] at h2; simp at h2
      | cons r rs =>
        cases rs with
        | nil => rw [hr] at h2; simp at h2
        | cons r2 rs2 =>
          rw [List.getLast?_cons_cons]
          rw [hr] at ih
          exact ih
    · rw [if_neg h]
      cases hr : splitChar sep (cs ++ [sep]) with
      | nil => rw [hr] at h2; simp at h2
      | cons r rs =>
        cases rs with
        | nil => rw [hr] at h2; simp at h2
        | cons r2 rs2 =>
          rw [hr] at ih
          rw [List.getLast?_cons_cons] at ih
          rw [List.getLast?_cons_cons]
          exact ih

theorem pathJoin_empty (p : Path) : pathJoin p "" = p := by
  have h : ((splitChar '/' "".toList).map (fun l => String.mk l)).filter
      (fun t => !(t == "")) = [] := rfl
  unfold pathJoin
  rw [h, List.append_nil]

theorem existsPath_mkdirP_self (fs : FS) (p : Path) :
    (fs.mkdirP p).existsPath p = true := by
  simp [FS.mkdirP, FS.existsPath]

theorem existsPath_mono_mkdirP {fs : FS} {p : Path} (q : Path)
    (h : fs.existsPath p = true) : (fs.mkdirP q).existsPath p = true := by
  simp only [FS.existsPath, FS.mkdirP, Bool.or_eq_true, decide_eq_true_eq,
    List.mem_cons, List.mem_append] at h ⊢
  tauto

theorem existsPath_writeFile_self (fs : FS) (p : Path) (c : List Nat) :
    (fs.writeFile p c).existsPath p = true := by
  simp [FS.existsPath, FS.writeFile]

/-- A successful download_url call returned the resolved cache path, and
that path exists in the resulting filesystem. -/
theorem download_url_ok {net : String → HttpResponse} {fs : FS} {url : String}
    {dp : Path} {p : Path} (h : (download_url net fs url dp).ret = .ok p) :
    p = resolvePath url dp
    ∧ (download_url net fs url dp).fs.existsPath (resolvePath url dp) = true := by
  cases hex : (fs.mkdirP dp).existsPath (resolvePath url dp) with
  | true =>
    refine ⟨?_, ?_⟩
    · simp [download_url, hex] at h
      exact h.symm
    · simp [download_url, hex]
  | false =>
    cases h404 : ((net url).status_code == 404) with
    | true => simp [download_url, hex, h404] at h
    | false =>
      cases h200 : ((net url).status_code != 200) with
      | true => simp [download_url, hex, h404, h200] at h
      | false =>
        cases hcl : (net url).contentLength with
        | none =>
          refine ⟨?_, ?_⟩
          · simp [download_url, hex, h404, h200, hcl] at h
            exact h.symm
          · simp [download_url, hex, h404, h200, hcl]
            exact existsPath_writeFile_self _ _ _
        | some total =>
          cases hz : (total == 0 && !(net url).content.isEmpty) with
          | true => simp [download_url, hex, h404, h200, hcl, hz] at h
          | false =>
            refine ⟨?_, ?_⟩
            · simp [download_url, hex, h404, h200, hcl, hz] at h
              exact h.symm
            · simp [download_url, hex, h404, h200, hcl, hz]
              exact existsPath_writeFile_self _ _ _

/-! ## Claim C4 -/

/-- C4: with the resolved cache path already present, download_url issues
no request, prints the already-downloaded notice, returns the resolved
path and writes no file; and after any successful fetch, fetching the same
URL again returns the same path and issues no request. -/
theorem C4_cache_idempotence (net : String → HttpResponse) (fsA fsB : FS)
    (url : String) (dp : Path) (p : Path)
    (hA : (fsA.mkdirP dp).existsPath (resolvePath url dp) = true)
    (hB : (download_url net fsB url dp).ret = .ok p) :
    (download_url net fsA url dp).requests = 0
    ∧ (download_url net fsA url dp).output = [cache_name url ++ " already downloaded\n"]
    ∧ (download_url net fsA url dp).ret = .ok (resolvePath url dp)
    ∧ (download_url net fsA url dp).fs.files = fsA.files
    ∧ (download_url net (download_url net fsB url dp).fs url dp).ret = .ok p
    ∧ (download_url net (download_url net fsB url dp).fs url dp).requests = 0 := by
  obtain ⟨hp, hex⟩ := download_url_ok hB
  have hex2 : ((download_url net fsB url dp).fs.mkdirP dp).existsPath (resolvePath url dp) =
      true := existsPath_mono_mkdirP dp hex
  refine ⟨?_, ?_, ?_, ?_, ?_, ?_⟩
  · simp [download_url, hA]
  · simp [download_url, hA]
  · simp [download_url, hA]
  · have hfs : (download_url net fsA url dp).fs = fsA.mkdirP dp := by
      simp [download_url, hA]
    rw [hfs]; rfl
  · rw [hp]
    revert hex2
    generalize (download_url net fsB url dp).fs = g
    intro hex2
    simp [download_url, hex2]
  · revert hex2
    generalize (download_url net fsB url dp).fs = g
    intro hex2
    simp [download_url, hex2]

theorem C4_cache_idempotence_witness :
    ((FS.mk [] [(["cache", "app.zip"], [])]).mkdirP ["cache"]).existsPath
        (resolvePath "https://example.com/assets/app.zip" ["cache"]) = true
    ∧ (download_url (fun _ => HttpResponse.mk 200 none [5, 6]) (FS.mk [] [])
        "https://example.com/assets/app.zip" ["cache"]).ret = .ok ["cache", "app.zip"]
    ∧ (download_url (fun _ => HttpResponse.mk 200 none [5, 6])
        (FS.mk [] [(["cache", "app.zip"], [])])
        "https://example.com/assets/app.zip" ["cache"]).requests = 0
    ∧ (download_url (fun _ => HttpResponse.mk 200 none [5, 6])
        (FS.mk [] [(["cache", "app.zip"], [])])
        "https://example.com/assets/app.zip" ["cache"]).output =
        [cache_name "https://example.com/assets/app.zip" ++ " already downloaded\n"]
    ∧ (download_url (fun _ => HttpResponse.mk 200 none [5, 6])
        (FS.mk [] [(["cache", "app.zip"], [])])
        "https://example.com/assets/app.zip" ["cache"]).ret =
        .ok (resolvePath "https://example.com/assets/app.zip" ["cache"])
    ∧ (download_url (fun _ => HttpResponse.mk 200 none [5, 6])
        (FS.mk [] [(["cache", "app.zip"], [])])
        "https://example.com/assets/app.zip" ["cache"]).fs.files =
        (FS.mk [] [(["cache", "app.zip"], [])]).files
    ∧ (download_url (fun _ => HttpResponse.mk 200 none [5, 6])
        (download_url (fun _ => HttpResponse.mk 200 none [5, 6]) (FS.mk [] [])
          "https://example.com/assets/app.zip" ["cache"]).fs
        "https://example.com/assets/app.zip" ["cache"]).ret = .ok ["cache", "app.zip"]
    ∧ (download_url (fun _ => HttpResponse.mk 200 none [5, 6])
        (download_url (fun _ => HttpResponse.mk 200 none [5, 6]) (FS.mk [] [])
          "https://example.com/assets/app.zip" ["cache"]).fs
        "https://example.com/assets/app.zip" ["cache"]).requests = 0 := by
  have h := C4_cache_idempotence (fun _ => HttpResponse.mk 200 none [5, 6])
    (FS.mk [] [(["cache", "app.zip"], [])]) (FS.mk [] [])
    "https://example.com/assets/app.zip" ["cache"] ["cache", "app.zip"]
    (by decide) (by decide)
  exact ⟨by decide, by decide, h.1, h.2.1, h.2.2.1, h.2.2.2.1, h.2.2.2.2.1, h.2.2.2.2.2⟩

/-! ## Claim C10 -/

/-- C10: for a URL whose path component ends in a slash, the derived cache
name is the empty string, the target path is the cache directory itself —
which the call has just created with mkdir — so the existence check
succeeds and download_url returns the cache directory path with no network
request and no file written. -/
theorem C10_trailing_slash (net : String → HttpResponse) (fs : FS) (url : String) (dp : Path)
    (hslash : ∃ q, urlparsePathL url = q ++ ['/']) :
    cache_name url = ""
    ∧ resolvePath url dp = dp
    ∧ (download_url net fs url dp).ret = .ok dp
    ∧ (download_url net fs url dp).requests = 0
    ∧ (download_url net fs url dp).fs.files = fs.files := by
  obtain ⟨q, hq⟩ := hslash
  have hname : cache_name url = "" := by
    unfold cache_name
    rw [hq, splitChar_getLast_ends_sep]
  have hres : resolvePath url dp = dp := by
    rw [resolvePath, hname, pathJoin_empty]
  have hex : (fs.mkdirP dp).existsPath dp = true := existsPath_mkdirP_self fs dp
  refine ⟨hname, hres, ?_, ?_, ?_⟩
  · simp [download_url, hres, hex]
  · simp [download_url, hres, hex]
  · have hfs : (download_url net fs url dp).fs = fs.mkdirP dp := by
      simp [download_url, hres, hex]
    rw [hfs]; rfl

theorem C10_trailing_slash_witness :
    (∃ q, urlparsePathL "https://example.com/downloads/" = q ++ ['/'])
    ∧ cache_name "https://example.com/downloads/" = ""
    ∧ resolvePath "https://example.com/downloads/" ["cache"] = ["cache"]
    ∧ (download_url (fun _ => HttpResponse.mk 200 none [1]) (FS.mk [] [])
        "https://example.com/downloads/" ["cache"]).ret = .ok ["cache"]
    ∧ (download_url (fun _ => HttpResponse.mk 200 none [1]) (FS.mk [] [])
        "https://example.com/downloads/" ["cache"]).requests = 0
    ∧ (download_url (fun _ => HttpResponse.mk 200 none [1]) (FS.mk [] [])
        "https://example.com/downloads/" ["cache"]).fs.files = (FS.mk [] []).files := by
  have h := C10_trailing_slash (fun _ => HttpResponse.mk 200 none [1]) (FS.mk [] [])
    "https://example.com/downloads/" ["cache"] ⟨"/downloads".toList, by decide⟩
  exact ⟨⟨"/downloads".toList, by decide⟩, h.1, h.2.1, h.2.2.1, h.2.2.2.1, h.2.2.2.2⟩

/-! ## The last piece of a split, and the parameter-stripping step -/

theorem splitChar_sep_not_mem {sep : Char} {l : List Char} (h : sep ∉ l) :
    splitChar sep l = [l] := by
  induction l with
  | nil => simp [splitChar]
  | cons c cs ih =>
    have hc : ¬ c = sep := fun he => h (he ▸ List.mem_cons_self c cs)
    have hcs : sep ∉ cs := fun hm => h (List.mem_cons_of_mem c hm)
    simp only [splitChar, if_neg hc, ih hcs]

theorem splitChar_break {sep : Char} (r : List Char) :
    ∀ t : List Char, sep ∉ t → splitChar sep (t ++ sep :: r) = t :: splitChar sep r := by
  intro t
  induction t with
  | nil => intro _; simp [splitChar]
  | cons c t' ih =>
    intro ht
    have hc : ¬ c = sep := fun he => ht (he ▸ List.mem_cons_self c t')
    have ht' : sep ∉ t' := fun hm => ht (List.mem_cons_of_mem c hm)
    rw [List.cons_append]
    simp only [splitChar, if_neg hc, ih ht']

theorem mem_split_first {sep : Char} {l : List Char} (h : sep ∈ l) :
    ∃ t r, sep ∉ t ∧ l = t ++ sep :: r := by
  induction l with
  | nil => cases h
  | cons c cs ih =>
    by_cases hc : c = sep
    · exact ⟨[], cs, by simp, by rw [hc]; rfl⟩
    · have hcs : sep ∈ cs := by
        rcases List.mem_cons.mp h with h1 | h2
        · exact absurd h1.symm hc
        · exact h2
      obtain ⟨t, r, ht, hl⟩ := ih hcs
      refine ⟨c :: t, r, ?_, by rw [hl]; rfl⟩
      intro hm
      rcases List.mem_cons.mp hm with h1 | h2
      · exact hc h1.symm
      · exact ht h2

theorem takeWhile_append_cons_of_neg {q : Char → Bool} {a : Char} (xs ys : List Char)
    (h : q a = false) : (xs ++ a :: ys).takeWhile q = xs.takeWhile q := by
  induction xs with
  | nil => simp [List.takeWhile_cons, h]
  | cons x xs ih =>
    rw [List.cons_append, List.takeWhile_cons, List.takeWhile_cons]
    cases hq : q x
    · rfl
    · rw [ih]

theorem mem_of_mem_takeWhile' {q : Char → Bool} {x : Char} {l : List Char}
    (h : x ∈ l.takeWhile q) : x ∈ l := by
  induction l with
  | nil => simp at h
  | cons a as ih =>
    rw [List.takeWhile_cons] at h
    by_cases hq : q a
    · rw [if_pos hq] at h
      rcases List.mem_cons.mp h with h1 | h2
      · exact h1 ▸ List.mem_cons_self a as
      · exact List.mem_cons_of_mem a (ih h2)
    · rw [if_neg hq] at h
      simp at h

theorem takeWhile_pred {q : Char → Bool} {x : Char} {l : List Char}
    (h : x ∈ l.takeWhile q) : q x = true := by
  induction l with
  | nil => simp at h
  | cons a as ih =>
    rw [List.takeWhile_cons] at h
    by_cases hq : q a
    · rw [if_pos hq] at h
      rcases List.mem_cons.mp h with h1 | h2
      · exact h1 ▸ hq
      · exact ih h2
    · rw [if_neg hq] at h
      simp at h

theorem dropWhile_first_fail {sep : Char} {l : List Char} (h : sep ∈ l) :
    ∃ rest, l.dropWhile (fun c => decide (c ≠ sep)) = sep :: rest := by
  induction l with
  | nil => cases h
  | cons c cs ih =>
    by_cases hc : c = sep
    · subst hc
      exact ⟨cs, by simp [List.dropWhile_cons]⟩
    · have hcs : sep ∈ cs := by
        rcases List.mem_cons.mp h with h1 | h2
        · exact absurd h1.symm hc
        · exact h2
      obtain ⟨rest, hrest⟩ := ih hcs
      refine ⟨rest, ?_⟩
      rw [List.dropWhile_cons_of_pos (by simp [hc])]
      exact hrest

/-- The last piece of Python's split equals the suffix of the string after
its last separator (the reversed longest separator-free suffix). -/
theorem lastPiece_eq (sep : Char) : ∀ n l, l.length ≤ n →
    ((splitChar sep l).getLast?).getD [] =
      (l.reverse.takeWhile (fun c => decide (c ≠ sep))).reverse := by
  intro n
  induction n with
  | zero =>
    intro l hl
    have : l = [] := List.length_eq_zero.mp (Nat.le_zero.mp hl)
    subst this
    simp [splitChar]
  | succ n ih =>
    intro l hl
    by_cases hmem : sep ∈ l
    · obtain ⟨t, r, ht, hlr⟩ := mem_split_first hmem
      subst hlr
      rw [splitChar_break r t ht]
      have hr : ((splitChar sep r).getLast?).getD [] =
          (r.reverse.takeWhile (fun c => decide (c ≠ sep))).reverse := by
        apply ih
        have := List.length_append t (sep :: r)
        simp only [List.length_cons] at this
        omega
      cases hsp : splitChar sep r with
      | nil => exact absurd hsp (splitChar_ne_nil sep r)
      | cons p ps =>
        rw [List.getLast?_cons_cons]
        rw [hsp] at hr
        rw [hr]
        have hrev : (t ++ sep :: r).reverse = r.reverse ++ sep :: t.reverse := by
          simp
        rw [hrev, takeWhile_append_cons_of_neg r.reverse t.reverse (by simp)]
    · rw [splitChar_sep_not_mem hmem]
      have hall : l.reverse.takeWhile (fun c => decide (c ≠ sep)) = l.reverse := by
        rw [List.takeWhile_eq_self_iff]
        intro x hx
        simp only [decide_eq_true_eq]
        intro hxs
        exact hmem (hxs ▸ List.mem_reverse.mp hx)
      rw [hall, List.reverse_reverse]
      rfl

/-- Stripping the parameter suffix commutes with taking the last path
segment: the last segment of `_splitparams(path)` is the last segment of
the path cut at its first semicolon. -/
theorem lastPiece_splitparams (p : List Char) :
    ((splitChar '/' (splitparamsL p)).getLast?).getD [] =
      (((splitChar '/' p).getLast?).getD []).takeWhile (fun c => decide (c ≠ ';')) := by
  rw [lastPiece_eq '/' (splitparamsL p).length (splitparamsL p) le_rfl,
    lastPiece_eq '/' p.length p le_rfl]
  unfold splitparamsL
  by_cases hsl : '/' ∈ p
  · rw [if_pos (by simpa using hsl)]
    by_cases hseg : ';' ∈ (p.reverse.takeWhile (fun c => decide (c ≠ '/'))).reverse
    · rw [if_pos (by simpa using hseg)]
      obtain ⟨rest, hrest⟩ := dropWhile_first_fail (List.mem_reverse.mpr hsl)
      rw [List.reverse_append, List.reverse_reverse, hrest]
      rw [takeWhile_append_cons_of_neg _ _ (by simp)]
      have hall : ((p.reverse.takeWhile (fun c => decide (c ≠ '/'))).reverse.takeWhile
          (fun c => decide (c ≠ ';'))).reverse.takeWhile (fun c => decide (c ≠ '/')) =
          ((p.reverse.takeWhile (fun c => decide (c ≠ '/'))).reverse.takeWhile
            (fun c => decide (c ≠ ';'))).reverse := by
        rw [List.takeWhile_eq_self_iff]
        intro x hx
        have hx1 : x ∈ (p.reverse.takeWhile (fun c => decide (c ≠ '/'))).reverse.takeWhile
            (fun c => decide (c ≠ ';')) := List.mem_reverse.mp hx
        have hx2 : x ∈ p.reverse.takeWhile (fun c => decide (c ≠ '/')) :=
          List.mem_reverse.mp (mem_of_mem_takeWhile' hx1)
        exact takeWhile_pred hx2
      rw [hall, List.reverse_reverse]
    · rw [if_neg (by simpa using hseg)]
      have hall : (p.reverse.takeWhile (fun c => decide (c ≠ '/'))).reverse.takeWhile
          (fun c => decide (c ≠ ';')) =
          (p.reverse.takeWhile (fun c => decide (c ≠ '/'))).reverse := by
        rw [List.takeWhile_eq_self_iff]
        intro x hx
        simp only [decide_eq_true_eq]
        intro hxs
        exact hseg (hxs ▸ hx)
      rw [hall]
  · rw [if_neg (by simpa using hsl)]
    have hsub : ∀ x ∈ p.takeWhile (fun c => decide (c ≠ ';')), x ∈ p :=
      fun x hx => mem_of_mem_takeWhile' hx
    have h1 : (p.takeWhile (fun c => decide (c ≠ ';'))).reverse.takeWhile
        (fun c => decide (c ≠ '/')) = (p.takeWhile (fun c => decide (c ≠ ';'))).reverse := by
      rw [List.takeWhile_eq_self_iff]
      intro x hx
      simp only [decide_eq_true_eq]
      intro hxs
      exact hsl (hxs ▸ hsub x (List.mem_reverse.mp hx))
    have h2 : p.reverse.takeWhile (fun c => decide (c ≠ '/')) = p.reverse := by
      rw [List.takeWhile_eq_self_iff]
      intro x hx
      simp only [decide_eq_true_eq]
      intro hxs
      exact hsl (hxs ▸ List.mem_reverse.mp hx)
    rw [h1, h2, List.reverse_reverse, List.reverse_reverse]

/-! ## Claim C5 -/

/-- Modelled from claim C5 as amended: the cache name is the final path
segment of the query- and fragment-stripped URL path and, for the schemes
that use URL parameters, the segment is additionally cut at its first
semicolon (the parameter suffix urlparse strips). -/
def specCacheNameAmended (url : String) : String :=
  if decide (urlScheme url ∈ uses_params) then
    String.mk ((((splitChar '/' (urlsplitPathL url)).getLast?).getD []).takeWhile
      (fun c => decide (c ≠ ';')))
  else
    String.mk (((splitChar '/' (urlsplitPathL url)).getLast?).getD [])

/-- C5 (amended): resolvePath is deterministic, and equals the cache
directory joined with the final path segment of the URL after stripping
query and fragment — except that for schemes using URL parameters the
final segment's parameter suffix (from its first semicolon) is also
stripped. -/
theorem C5_resolve_path_formula (url : String) (cacheDir : Path) :
    resolvePath url cacheDir = resolvePath url cacheDir
    ∧ resolvePath url cacheDir = pathJoin cacheDir (specCacheNameAmended url) := by
  refine ⟨rfl, ?_⟩
  have hsemi_not_in_last : ';' ∉ urlsplitPathL url →
      (((splitChar '/' (urlsplitPathL url)).getLast?).getD []).takeWhile
        (fun c => decide (c ≠ ';')) =
        ((splitChar '/' (urlsplitPathL url)).getLast?).getD [] := by
    intro hsemi
    rw [List.takeWhile_eq_self_iff]
    intro x hx
    simp only [decide_eq_true_eq]
    intro hxs
    apply hsemi
    subst hxs
    rw [lastPiece_eq '/' (urlsplitPathL url).length (urlsplitPathL url) le_rfl] at hx
    exact List.mem_reverse.mp (mem_of_mem_takeWhile' (List.mem_reverse.mp hx))
  have hname : cache_name url = specCacheNameAmended url := by
    by_cases hsch : urlScheme url ∈ uses_params
    · have h2 : specCacheNameAmended url =
          String.mk ((((splitChar '/' (urlsplitPathL url)).getLast?).getD []).takeWhile
            (fun c => decide (c ≠ ';'))) := by
        unfold specCacheNameAmended
        rw [if_pos (by simpa using hsch)]
      by_cases hsemi : ';' ∈ urlsplitPathL url
      · have h1 : urlparsePathL url = splitparamsL (urlsplitPathL url) := by
          unfold urlparsePathL
          rw [if_pos]
          simp only [Bool.and_eq_true, decide_eq_true_eq]
          exact ⟨hsch, hsemi⟩
        unfold cache_name
        rw [h1, lastPiece_splitparams, h2]
      · have h1 : urlparsePathL url = urlsplitPathL url := by
          unfold urlparsePathL
          rw [if_neg]
          simp only [Bool.and_eq_true, decide_eq_true_eq]
          rintro ⟨-, hb⟩
          exact hsemi hb
        unfold cache_name
        rw [h1, h2, hsemi_not_in_last hsemi]
    · have h2 : specCacheNameAmended url =
          String.mk (((splitChar '/' (urlsplitPathL url)).getLast?).getD []) := by
        unfold specCacheNameAmended
        rw [if_neg (by simpa using hsch)]
      have h1 : urlparsePathL url = urlsplitPathL url := by
        unfold urlparsePathL
        rw [if_neg]
        simp only [Bool.and_eq_true, decide_eq_true_eq]
        rintro ⟨ha, -⟩
        exact hsch ha
      unfold cache_name
      rw [h1, h2]
  rw [resolvePath, hname]

/-- C5 counterexample: for a URL whose final path segment carries a
';'-parameter suffix, urlparse strips the suffix, so the code's cache path
differs from the claim's "final path segment after stripping query and
fragment". -/
theorem C5_counterexample :
    resolvePath "https://example.com/files/app.tar.gz;sig=abc" ["cache"] =
      ["cache", "app.tar.gz"]
    ∧ resolvePathSpec "https://example.com/files/app.tar.gz;sig=abc" ["cache"] =
      ["cache", "app.tar.gz;sig=abc"]
    ∧ resolvePath "https://example.com/files/app.tar.gz;sig=abc" ["cache"] ≠
      resolvePathSpec "https://example.com/files/app.tar.gz;sig=abc" ["cache"] := by
  refine ⟨by decide, by decide, by decide⟩

/-! ## Chunking and the progress loop -/

theorem chunk_pos : 0 < CHUNK := by decide

theorem chunkifyAux_nil (fuel : Nat) : chunkifyAux fuel [] = [] := by
  cases fuel <;> rfl

theorem numChunks_zero : numChunks 0 = 0 := by decide

theorem numChunks_succ {n : Nat} (h : 0 < n) :
    numChunks n = numChunks (n - CHUNK) + 1 := by
  have hC := chunk_pos
  unfold numChunks
  by_cases hle : n ≤ CHUNK
  · have h1 : n - CHUNK = 0 := by omega
    rw [h1]
    have h2 : (0 + CHUNK - 1) / CHUNK = 0 := Nat.div_eq_of_lt (by omega)
    have h3 : (n + CHUNK - 1) / CHUNK = 1 :=
      Nat.div_eq_of_lt_le (by omega) (by omega)
    rw [h2, h3]
  · have h4 : n + CHUNK - 1 = (n - CHUNK + CHUNK - 1) + CHUNK := by omega
    rw [h4, Nat.add_div_right _ hC]

theorem chunkifyAux_length : ∀ fuel (l : List Nat), l.length ≤ fuel →
    (chunkifyAux fuel l).length = numChunks l.length := by
  intro fuel
  induction fuel with
  | zero =>
    intro l hl
    have h0 : l = [] := List.length_eq_zero.mp (Nat.le_zero.mp hl)
    subst h0
    simp [chunkifyAux_nil, numChunks_zero]
  | succ fuel ih =>
    intro l hl
    cases l with
    | nil => simp [chunkifyAux_nil, numChunks_zero]
    | cons x xs =>
      have hC := chunk_pos
      have hpos : 0 < (x :: xs).length := by simp
      rw [show chunkifyAux (fuel + 1) (x :: xs) =
          ((x :: xs).take CHUNK) :: chunkifyAux fuel ((x :: xs).drop CHUNK) from rfl]
      rw [List.length_cons, ih _ (by rw [List.length_drop]; simp only [List.length_cons] at hl ⊢; omega),
        List.length_drop, numChunks_succ hpos]

theorem chunkifyAux_join : ∀ fuel (l : List Nat), l.length ≤ fuel →
    (chunkifyAux fuel l).flatten = l := by
  intro fuel
  induction fuel with
  | zero =>
    intro l hl
    have h0 : l = [] := List.length_eq_zero.mp (Nat.le_zero.mp hl)
    subst h0
    simp [chunkifyAux_nil]
  | succ fuel ih =>
    intro l hl
    cases l with
    | nil => simp [chunkifyAux_nil]
    | cons x xs =>
      have hC := chunk_pos
      rw [show chunkifyAux (fuel + 1) (x :: xs) =
          ((x :: xs).take CHUNK) :: chunkifyAux fuel ((x :: xs).drop CHUNK) from rfl]
      rw [List.flatten_cons, ih _ (by rw [List.length_drop]; simp only [List.length_cons] at hl ⊢; omega),
        List.take_append_drop]

theorem chunkifyAux_sizes : ∀ fuel (l : List Nat), l.length ≤ fuel → ∀ i,
    i + 1 < (chunkifyAux fuel l).length →
    ((chunkifyAux fuel l).getD i []).length = CHUNK := by
  intro fuel
  induction fuel with
  | zero =>
    intro l hl i hi
    have h0 : l = [] := List.length_eq_zero.mp (Nat.le_zero.mp hl)
    subst h0
    simp [chunkifyAux_nil] at hi
  | succ fuel ih =>
    intro l hl i hi
    cases l with
    | nil => simp [chunkifyAux_nil] at hi
    | cons x xs =>
      have hC := chunk_pos
      rw [show chunkifyAux (fuel + 1) (x :: xs) =
          ((x :: xs).take CHUNK) :: chunkifyAux fuel ((x :: xs).drop CHUNK) from rfl] at hi ⊢
      cases i with
      | zero =>
        rw [List.getD_cons_zero, List.length_take]
        rw [List.length_cons] at hi
        have hne : chunkifyAux fuel ((x :: xs).drop CHUNK) ≠ [] := by
          intro he
          rw [he] at hi
          simp at hi
        have hdrop : (x :: xs).drop CHUNK ≠ [] := by
          intro he
          rw [he, chunkifyAux_nil] at hne
          exact hne rfl
        have hlen : 0 < (x :: xs).length - CHUNK := by
          have := List.length_drop CHUNK (x :: xs)
          rcases Nat.eq_zero_or_pos ((x :: xs).length - CHUNK) with h0 | h0
          · rw [h0] at this
            exact absurd (List.length_eq_zero.mp this) hdrop
          · exact h0
        omega
      | succ j =>
        rw [List.getD_cons_succ]
        apply ih _ (by rw [List.length_drop]; simp only [List.length_cons] at hl ⊢; omega)
        rw [List.length_cons] at hi
        omega

theorem progressOutput_chunkifyAux (total : Nat) : ∀ fuel (l : List Nat) (d : Nat),
    l.length ≤ fuel →
    progressOutput total d (chunkifyAux fuel l) =
      (List.range (numChunks l.length)).map
        (fun i => progressLine (50 * (d + min ((i + 1) * CHUNK) l.length) / total)) := by
  intro fuel
  induction fuel with
  | zero =>
    intro l d hl
    have h0 : l = [] := List.length_eq_zero.mp (Nat.le_zero.mp hl)
    subst h0
    simp [chunkifyAux_nil, progressOutput, numChunks_zero]
  | succ fuel ih =>
    intro l d hl
    cases l with
    | nil => simp [chunkifyAux_nil, progressOutput, numChunks_zero]
    | cons x xs =>
      have hC := chunk_pos
      have hpos : 0 < (x :: xs).length := by simp
      rw [show chunkifyAux (fuel + 1) (x :: xs) =
          ((x :: xs).take CHUNK) :: chunkifyAux fuel ((x :: xs).drop CHUNK) from rfl]
      rw [show progressOutput total d (((x :: xs).take CHUNK) ::
            chunkifyAux fuel ((x :: xs).drop CHUNK)) =
          progressLine (50 * (d + ((x :: xs).take CHUNK).length) / total) ::
            progressOutput total (d + ((x :: xs).take CHUNK).length)
              (chunkifyAux fuel ((x :: xs).drop CHUNK)) from rfl]
      rw [ih _ _ (by rw [List.length_drop]; simp only [List.length_cons] at hl ⊢; omega)]
      have hmin : ((x :: xs).take CHUNK).length = min CHUNK (x :: xs).length := by
        simp [List.length_take]
      rw [hmin, List.length_drop]
      rw [numChunks_succ hpos, List.range_succ_eq_map, List.map_cons, List.map_map]
      rw [List.cons.injEq]
      refine ⟨?_, ?_⟩
      · simp
      · apply List.map_congr_left
        intro i hi
        simp only [Function.comp]
        have harg : d + min CHUNK (x :: xs).length +
            min ((i + 1) * CHUNK) ((x :: xs).length - CHUNK) =
            d + min ((i + 1 + 1) * CHUNK) (x :: xs).length := by
          have hA : (i + 1 + 1) * CHUNK = (i + 1) * CHUNK + CHUNK := by ring
          rw [hA]
          generalize (i + 1) * CHUNK = A
          omega
        rw [harg]

theorem lookup_writeFile (fs : FS) (p : Path) (c : List Nat) :
    (fs.writeFile p c).files.lookup p = some c := by
  rw [FS.writeFile]
  rw [List.lookup, beq_self_eq_true]

/-! ## Claim C7 -/

/-- C7: for a cache-missing 200 response advertising content-length
`total` (with a body of length at most total): the body is streamed in
chunks of CHUNK = 1 MiB — numChunks(len) = ⌈len/CHUNK⌉ chunks whose
concatenation is the body, every chunk before the last of size exactly
CHUNK; after chunk i (with downloaded = min((i+1)·CHUNK, len) bytes
accumulated) the printed string is the carriage-return progress line of
done = ⌊50·downloaded/total⌋ filled blocks, 50 − done dots and percentage
2·done; done never exceeds 50, so the bar has fixed width 50; a plain
newline ends the output, and the file then holds the whole body.  When no
content-length is advertised, the output is the bare newline — no
progress line — and the whole body is written in one shot. -/
theorem C7_progress_output (net netNone : String → HttpResponse) (fs : FS) (url : String)
    (dp : Path) (total : Nat)
    (hmiss : (fs.mkdirP dp).existsPath (resolvePath url dp) = false)
    (h200 : (net url).status_code = 200)
    (hcl : (net url).contentLength = some total)
    (hlen : (net url).content.length ≤ total)
    (hn200 : (netNone url).status_code = 200)
    (hncl : (netNone url).contentLength = none) :
    (download_url net fs url dp).output =
      (List.range (numChunks (net url).content.length)).map
        (fun i => progressLine
          (50 * (min ((i + 1) * CHUNK) (net url).content.length) / total)) ++ ["\n"]
    ∧ (chunkify (net url).content).length = numChunks (net url).content.length
    ∧ (chunkify (net url).content).flatten = (net url).content
    ∧ (∀ i, i + 1 < (chunkify (net url).content).length →
        ((chunkify (net url).content).getD i []).length = CHUNK)
    ∧ (∀ i, 50 * (min ((i + 1) * CHUNK) (net url).content.length) / total ≤ 50)
    ∧ (download_url net fs url dp).fs.files.lookup (resolvePath url dp) =
        some (net url).content
    ∧ (download_url netNone fs url dp).output = ["\n"]
    ∧ (download_url netNone fs url dp).fs.files.lookup (resolvePath url dp) =
        some (netNone url).content := by
  have hz : (total == 0 && !(net url).content.isEmpty) = false := by
    cases h0 : (total == 0) with
    | false => simp
    | true =>
      have ht0 : total = 0 := by simpa using h0
      have hempty : (net url).content = [] := by
        rw [ht0] at hlen
        exact List.length_eq_zero.mp (Nat.le_zero.mp hlen)
      simp [hempty]
  refine ⟨?_, chunkifyAux_length _ _ le_rfl, chunkifyAux_join _ _ le_rfl,
    chunkifyAux_sizes _ _ le_rfl, ?_, ?_, ?_, ?_⟩
  · have hout : (download_url net fs url dp).output =
        progressOutput total 0 (chunkify (net url).content) ++ ["\n"] := by
      simp [download_url, hmiss, h200, hcl, hz]
    rw [hout, chunkify, progressOutput_chunkifyAux total _ _ 0 le_rfl]
    simp only [Nat.zero_add]
  · intro i
    have h1 : min ((i + 1) * CHUNK) (net url).content.length ≤ total :=
      le_trans (min_le_right _ _) hlen
    rcases Nat.eq_zero_or_pos total with h0 | h0
    · subst h0
      simp
    · calc 50 * min ((i + 1) * CHUNK) (net url).content.length / total
          ≤ 50 * total / total := Nat.div_le_div_right (Nat.mul_le_mul_left 50 h1)
        _ = 50 := Nat.mul_div_cancel _ h0
  · have hfs : (download_url net fs url dp).fs =
        (fs.mkdirP dp).writeFile (resolvePath url dp) (net url).content := by
      simp [download_url, hmiss, h200, hcl, hz]
    rw [hfs, lookup_writeFile]
  · simp [download_url, hmiss, hn200, hncl]
  · have hfs : (download_url netNone fs url dp).fs =
        (fs.mkdirP dp).writeFile (resolvePath url dp) (netNone url).content := by
      simp [download_url, hmiss, hn200, hncl]
    rw [hfs, lookup_writeFile]

theorem C7_progress_output_witness :
    ((FS.mk [] []).mkdirP ["cache"]).existsPath
        (resolvePath "https://example.com/assets/app.zip" ["cache"]) = false
    ∧ ((fun _ => HttpResponse.mk 200 (some 3) [9, 9, 9])
        "https://example.com/assets/app.zip").status_code = 200
    ∧ ((fun _ => HttpResponse.mk 200 (some 3) [9, 9, 9])
        "https://example.com/assets/app.zip").contentLength = some 3
    ∧ ((fun _ => HttpResponse.mk 200 (some 3) [9, 9, 9])
        "https://example.com/assets/app.zip").content.length ≤ 3
    ∧ ((fun _ => HttpResponse.mk 200 none [8, 8])
        "https://example.com/assets/app.zip").status_code = 200
    ∧ ((fun _ => HttpResponse.mk 200 none [8, 8])
        "https://example.com/assets/app.zip").contentLength = none
    ∧ (download_url (fun _ => HttpResponse.mk 200 (some 3) [9, 9, 9]) (FS.mk [] [])
        "https://example.com/assets/app.zip" ["cache"]).output =
      (List.range (numChunks ((fun _ => HttpResponse.mk 200 (some 3) [9, 9, 9])
          "https://example.com/assets/app.zip").content.length)).map
        (fun i => progressLine
          (50 * (min ((i + 1) * CHUNK) ((fun _ => HttpResponse.mk 200 (some 3) [9, 9, 9])
            "https://example.com/assets/app.zip").content.length) / 3)) ++ ["\n"]
    ∧ (download_url (fun _ => HttpResponse.mk 200 none [8, 8]) (FS.mk [] [])
        "https://example.com/assets/app.zip" ["cache"]).output = ["\n"] := by
  have h := C7_progress_output (fun _ => HttpResponse.mk 200 (some 3) [9, 9, 9])
    (fun _ => HttpResponse.mk 200 none [8, 8]) (FS.mk [] [])
    "https://example.com/assets/app.zip" ["cache"] 3
    (by decide) rfl rfl (by decide) rfl rfl
  exact ⟨by decide, rfl, rfl, by decide, rfl, rfl, h.1, h.2.2.2.2.2.2.1⟩

end Briefcase
